import Mathlib

/-!
Shallow embedding of the ClawMotion timeline engine and its chunked render
orchestrator, together with proofs of the specification's claims about them.

Conventions of the embedding:
* JS numbers are modelled as exact rationals (`ℚ`); tick indices and tick
  durations, which the code only ever uses as integers, are modelled as `ℤ`
  (or `ℕ` for loop counters).
* JS `Array.prototype.sort` is a stable sort with respect to the comparator's
  preorder; it is modelled by `List.insertionSort`, which is stable and
  structurally recursive.
* The two exponential easing curves call the host's floating point `2^x`;
  that external primitive is passed in as an explicit function argument
  `pow2`, as are the audio analyzer's `Math.sqrt` (`sqrtq`) and the external
  `fft-js` magnitude computation (`fftMag`). No claim depends on their values.
* Fallible lookups return `Option`.
-/

namespace Claw

/-- Names of the easing curves in the fixed `Easing` table of `src/core/Math.ts`. -/
inductive EasingName
  | linear
  | easeInQuad
  | easeOutQuad
  | easeInOutQuad
  | easeInCubic
  | easeOutCubic
  | easeInOutCubic
  | easeInExpo
  | easeOutExpo
deriving DecidableEq, Repr

/-- A keyframe/property value: a number, or an opaque non-numeric value
(modelled as a string), mirroring the `any`-typed `value` field. -/
inductive Value
  | num (q : ℚ)
  | str (s : String)
deriving DecidableEq, Repr

/-- `ClawMath.easeInOutQuad` from `src/core/Math.ts`:
`t < 0.5 ? 2*t*t : -1 + (4 - 2*t)*t`. -/
def easeInOutQuad (t : ℚ) : ℚ :=
  if t < 1/2 then 2 * t * t else -1 + (4 - 2 * t) * t

/-- The `Easing` table of `src/core/Math.ts`. The two `Expo` entries use the
host float `Math.pow(2, ·)`, passed in abstractly as `pow2`. -/
def easingFun (pow2 : ℚ → ℚ) : EasingName → ℚ → ℚ
  | .linear => fun t => t
  | .easeInQuad => fun t => t * t
  | .easeOutQuad => fun t => t * (2 - t)
  | .easeInOutQuad => fun t => if t < 1/2 then 2 * t * t else -1 + (4 - 2 * t) * t
  | .easeInCubic => fun t => t * t * t
  | .easeOutCubic => fun t => (t - 1) * (t - 1) * (t - 1) + 1
  | .easeInOutCubic => fun t =>
      if t < 1/2 then 4 * t * t * t else (t - 1) * (2 * t - 2) * (2 * t - 2) + 1
  | .easeInExpo => fun t => if t = 0 then 0 else pow2 (10 * (t - 1))
  | .easeOutExpo => fun t => if t = 1 then 1 else -(pow2 (-10 * t)) + 1

/-- The `Keyframe` interface of `src/core/Engine.ts`. -/
structure Keyframe where
  tick : ℚ
  value : Value
  easing : Option EasingName := none
deriving DecidableEq, Repr

/-- Comparator preorder used by `ClawAnimator.resolve`'s
`sort((a, b) => a.tick - b.tick)`. -/
def kfLE (a b : Keyframe) : Prop := a.tick ≤ b.tick

instance : DecidableRel kfLE := fun a b => inferInstanceAs (Decidable (a.tick ≤ b.tick))

instance : IsTotal Keyframe kfLE := ⟨fun a b => le_total a.tick b.tick⟩

instance : IsTrans Keyframe kfLE := ⟨fun _ _ _ h1 h2 => le_trans h1 h2⟩

/-- The non-destructive sort `[...keyframes].sort((a, b) => a.tick - b.tick)`
(JS sort is stable; modelled by the stable `List.insertionSort`). -/
def sortKfs (kfs : List Keyframe) : List Keyframe := List.insertionSort kfLE kfs

/-- Last element of a non-empty list given as head and tail
(`sorted[sorted.length - 1]`). -/
def lastKF (k : Keyframe) : List Keyframe → Keyframe
  | [] => k
  | k' :: ks => lastKF k' ks

/-- `ClawAnimator.interpolate`: numeric linear interpolation, otherwise a
step that switches from `a` to `b` only at `t = 1`. -/
def interpolate (a b : Value) (t : ℚ) : Value :=
  match a, b with
  | .num x, .num y => .num (x + (y - x) * t)
  | _, _ => if t < 1 then a else b

/-- The scan of adjacent sorted keyframes in `ClawAnimator.resolve`'s loop:
the first adjacent pair `(current, next)` with
`tick >= current.tick && tick < next.tick`. -/
def findPair (tick : ℚ) : List Keyframe → Option (Keyframe × Keyframe)
  | k1 :: k2 :: rest =>
      if k1.tick ≤ tick ∧ tick < k2.tick then some (k1, k2)
      else findPair tick (k2 :: rest)
  | _ => none

/-- `ClawAnimator.resolve` from `src/core/Animator.ts`. `none` models the
JS `undefined` returned for an empty keyframe list. -/
def resolve (pow2 : ℚ → ℚ) (keyframes : List Keyframe) (tick : ℚ) : Option Value :=
  match sortKfs keyframes with
  | [] => none
  | k :: ks =>
      if tick ≤ k.tick then some k.value
      else if (lastKF k ks).tick ≤ tick then some (lastKF k ks).value
      else
        match findPair tick (k :: ks) with
        | some (k1, k2) =>
            some (interpolate k1.value k2.value
              (easingFun pow2 (k2.easing.getD .linear)
                ((tick - k1.tick) / (k2.tick - k1.tick))))
        | none => some k.value

/-- Transition kinds of the `Transition` interface in `src/core/Engine.ts`. -/
inductive TransType
  | fade
  | slide
  | zoom
deriving DecidableEq, Repr

/-- The `Transition` interface of `src/core/Engine.ts`. -/
structure Transition where
  type : TransType
  durationTicks : ℤ
deriving DecidableEq, Repr

/-- Blend modes of the `Clip` interface. -/
inductive BlendMode
  | normal
  | multiply
  | screen
  | overlay
  | add
deriving DecidableEq, Repr

/-- The `Clip` interface of `src/core/Engine.ts`. -/
structure Clip where
  id : String
  blueprintId : String
  startTick : ℤ
  durationTicks : ℤ
  layer : Option ℤ := none
  props : List (String × Value) := []
  animations : List (String × List Keyframe) := []
  entry : Option Transition := none
  exit : Option Transition := none
  blendMode : Option BlendMode := none
deriving DecidableEq, Repr

/-- The `AudioFrameData` interface of `src/server/AudioAnalyzer.ts`. -/
structure AudioFrameData where
  volume : ℚ
  frequencies : List ℚ
deriving DecidableEq, Repr

/-- The mutable transition state `{opacity, translateX, translateY, scale}`
initialised to `(1, 0, 0, 1)` in `renderToLayers`/`render`. -/
structure TransState where
  opacity : ℚ
  translateX : ℚ
  translateY : ℚ
  scale : ℚ
deriving DecidableEq, Repr

/-- The entry-transition block of `ClawEngine.renderToLayers` (and the
identical block of `ClawEngine.render`): applies only while
`localTick < entry.durationTicks`. -/
def entryState (c : Clip) (localTick : ℤ) : TransState :=
  match c.entry with
  | some tr =>
      if localTick < tr.durationTicks then
        let t : ℚ := (localTick : ℚ) / (tr.durationTicks : ℚ)
        let eased := easeInOutQuad t
        { opacity := if tr.type = .fade then eased else 1
          translateX := 0
          translateY := if tr.type = .slide then (1 - eased) * 50 else 0
          scale := if tr.type = .zoom then 9/10 + eased * (1/10) else 1 }
      else { opacity := 1, translateX := 0, translateY := 0, scale := 1 }
  | none => { opacity := 1, translateX := 0, translateY := 0, scale := 1 }

/-- The exit-transition block of `ClawEngine.renderToLayers` (and of
`ClawEngine.render`): applies only while
`ticksRemaining < exit.durationTicks` with
`ticksRemaining = durationTicks - localTick`. -/
def exitState (c : Clip) (localTick : ℤ) (st : TransState) : TransState :=
  let ticksRemaining := c.durationTicks - localTick
  match c.exit with
  | some tr =>
      if ticksRemaining < tr.durationTicks then
        let t : ℚ := (ticksRemaining : ℚ) / (tr.durationTicks : ℚ)
        let eased := easeInOutQuad t
        { opacity := if tr.type = .fade then min st.opacity eased else st.opacity
          translateX := st.translateX
          translateY := if tr.type = .slide then (1 - eased) * (-50) else st.translateY
          scale := if tr.type = .zoom then st.scale * (9/10 + eased * (1/10)) else st.scale }
      else st
  | none => st

/-- Entry block followed by exit block, exactly as in the engine. -/
def transState (c : Clip) (localTick : ℤ) : TransState :=
  exitState c localTick (entryState c localTick)

/-- The opacity the engine computes for clip `c` at global tick `tick`. -/
def clipOpacity (c : Clip) (tick : ℤ) : ℚ :=
  (transState c (tick - c.startTick)).opacity

/-- The opacity after the entry block alone (1, or the entry-fade value). -/
def entryOpacity (c : Clip) (localTick : ℤ) : ℚ :=
  (entryState c localTick).opacity

/-- A clip is active at tick `T` iff `startTick ≤ T < startTick + durationTicks`
(the filter in `renderToLayers`/`render`). -/
def activeAt (tick : ℤ) (c : Clip) : Prop :=
  c.startTick ≤ tick ∧ tick < c.startTick + c.durationTicks

instance (tick : ℤ) (c : Clip) : Decidable (activeAt tick c) :=
  inferInstanceAs (Decidable (_ ∧ _))

/-- Layer of a clip: `clip.layer || 0`. -/
def layerOf (c : Clip) : ℤ := c.layer.getD 0

/-- Comparator preorder of the active-clip sort
`(a, b) => (a.layer || 0) - (b.layer || 0)`. -/
def clipLayerLE (a b : Clip) : Prop := layerOf a ≤ layerOf b

instance : DecidableRel clipLayerLE := fun a b =>
  inferInstanceAs (Decidable (layerOf a ≤ layerOf b))

instance : IsTotal Clip clipLayerLE := ⟨fun a b => le_total (layerOf a) (layerOf b)⟩

instance : IsTrans Clip clipLayerLE := ⟨fun _ _ _ h1 h2 => le_trans h1 h2⟩

/-- Comparator preorder of `addClip`'s sort
`(a, b) => (a.layer || 0) - (b.layer || 0) || a.startTick - b.startTick`. -/
def clipLE (a b : Clip) : Prop :=
  layerOf a < layerOf b ∨ (layerOf a = layerOf b ∧ a.startTick ≤ b.startTick)

instance : DecidableRel clipLE := fun a b =>
  inferInstanceAs (Decidable (layerOf a < layerOf b ∨
    (layerOf a = layerOf b ∧ a.startTick ≤ b.startTick)))

instance : IsTotal Clip clipLE := by
  refine ⟨fun a b => ?_⟩
  rcases lt_trichotomy (layerOf a) (layerOf b) with h | h | h
  · exact Or.inl (Or.inl h)
  · rcases le_total a.startTick b.startTick with h' | h'
    · exact Or.inl (Or.inr ⟨h, h'⟩)
    · exact Or.inr (Or.inr ⟨h.symm, h'⟩)
  · exact Or.inr (Or.inl h)

instance : IsTrans Clip clipLE := by
  refine ⟨fun a b c hab hbc => ?_⟩
  rcases hab with h1 | ⟨h1, h1'⟩ <;> rcases hbc with h2 | ⟨h2, h2'⟩
  · exact Or.inl (h1.trans h2)
  · exact Or.inl (lt_of_lt_of_le h1 h2.le)
  · exact Or.inl (lt_of_le_of_lt h1.le h2)
  · exact Or.inr ⟨h1.trans h2, h1'.trans h2'⟩

/-- `ClawEngine.addClip`: push the clip, then stable-sort the whole list by
`(layer, startTick)`. -/
def addClip (clips : List Clip) (c : Clip) : List Clip :=
  List.insertionSort clipLE (clips ++ [c])

/-- The clip list of an engine after a sequence of `addClip` calls, starting
from the empty list a fresh `ClawEngine` holds. -/
def addClips (cs : List Clip) : List Clip := cs.foldl addClip []

/-- Engine state relevant to per-tick frame content: the clip list, the
track-keyed audio frame map, camera animation tracks, and the set of
registered blueprint ids. -/
structure EngineState where
  clips : List Clip := []
  audioData : List (String × List AudioFrameData) := []
  cameraAnimations : List (String × List Keyframe) := []
  registry : List String := []

/-- `Map.get` on the track-id-keyed audio map. -/
def lookupTrack (m : List (String × List AudioFrameData)) (k : String) :
    Option (List AudioFrameData) :=
  (m.find? (fun p => p.1 == k)).map (fun p => p.2)

/-- `resolvedProps[prop] = v`, overwriting an existing key in place and
appending a new key, as JS object assignment does. -/
def setProp (m : List (String × Option Value)) (key : String) (v : Option Value) :
    List (String × Option Value) :=
  match m with
  | [] => [(key, v)]
  | (k, w) :: rest => if k = key then (k, v) :: rest else (k, w) :: setProp rest key v

/-- The merge of static props with per-tick animated resolutions in
`renderToLayers`: animated values (possibly `undefined`) override static ones. -/
def resolveProps (pow2 : ℚ → ℚ) (c : Clip) (localTick : ℚ) :
    List (String × Option Value) :=
  c.animations.foldl (fun acc pk => setProp acc pk.1 (resolve pow2 pk.2 localTick))
    (c.props.map (fun pv => (pv.1, some pv.2)))

/-- The per-clip record `renderToLayers` produces for one tick: the clip, its
computed opacity and 2D transform, plus the per-clip data placed in the
blueprint context (`localTime`, the resolved audio frame, the merged props). -/
structure LayerRes where
  clip : Clip
  opacity : ℚ
  translateX : ℚ
  translateY : ℚ
  scale : ℚ
  localTime : ℚ
  audio : Option AudioFrameData
  props : List (String × Option Value)

/-- The active clips at a tick, sorted by layer (stable, so equal-layer clips
keep insertion order), as computed in `renderToLayers`/`render`. -/
def activeClips (E : EngineState) (tick : ℤ) : List Clip :=
  List.insertionSort clipLayerLE (E.clips.filter (fun c => decide (activeAt tick c)))

/-- `ClawEngine.renderToLayers` from `src/core/Engine.ts`, restricted to its
observable per-tick output: one record per active clip whose blueprint id is
registered (unresolved blueprints are skipped, not fatal). -/
def renderToLayers (pow2 : ℚ → ℚ) (E : EngineState) (tick : ℕ) : List LayerRes :=
  (activeClips E (tick : ℤ)).filterMap (fun c =>
    if E.registry.contains c.blueprintId then
      let localTick : ℤ := (tick : ℤ) - c.startTick
      let st := transState c localTick
      some { clip := c
             opacity := st.opacity
             translateX := st.translateX
             translateY := st.translateY
             scale := st.scale
             localTime := (localTick : ℚ) / (c.durationTicks : ℚ)
             audio := (lookupTrack E.audioData "main").bind (fun fr => fr[tick]?)
             props := resolveProps pow2 c (localTick : ℚ) }
    else none)

/-- `chunkSize = Math.ceil(totalTicks / concurrency)` in `MotionFactory.render`. -/
def chunkSize (totalTicks concurrency : ℕ) : ℕ :=
  (totalTicks + concurrency - 1) / concurrency

/-- The chunk-building loop of `MotionFactory.render`: for `i` from `0` to
`concurrency - 1`, chunk `i` spans `[i*size, min((i+1)*size, totalTicks))`,
breaking as soon as a chunk's `startTick` reaches `totalTicks`. -/
def chunksFrom (totalTicks size : ℕ) : ℕ → ℕ → List (ℕ × ℕ)
  | _, 0 => []
  | i, n + 1 =>
      if totalTicks ≤ i * size then []
      else (i * size, min ((i + 1) * size) totalTicks) :: chunksFrom totalTicks size (i + 1) n

/-- The chunk list `MotionFactory.render` builds for a job. -/
def chunks (totalTicks concurrency : ℕ) : List (ℕ × ℕ) :=
  chunksFrom totalTicks (chunkSize totalTicks concurrency) 0 concurrency

/-- The ticks of one chunk, in order: `startTick, ..., endTick - 1`. -/
def chunkTicks (p : ℕ × ℕ) : List ℕ := List.range' p.1 (p.2 - p.1)

/-- The sequence of per-tick frame contents a whole job renders: each chunk's
worker steps sequentially through its tick range, and the chunk outputs are
stitched in index order. -/
def renderJob (pow2 : ℚ → ℚ) (E : EngineState) (totalTicks concurrency : ℕ) :
    List (List LayerRes) :=
  (chunks totalTicks concurrency).flatMap (fun p =>
    (chunkTicks p).map (renderToLayers pow2 E))

/-- `totalTicks = config.duration * config.fps` in `MotionFactory.render`. -/
def jobTotalTicks (duration fps : ℚ) : ℚ := duration * fps

/-- Trigger source kinds of `AudioTriggerConfig`. -/
inductive TriggerType
  | volume
  | frequency
deriving DecidableEq, Repr

/-- The `reaction` field of `AudioTriggerConfig`. -/
structure TriggerReaction where
  durationTicks : ℤ
  peakValue : Value
  baseValue : Value
  easing : Option EasingName := none
deriving DecidableEq, Repr

/-- The `AudioTriggerConfig` interface of `src/core/AudioTrigger.ts`. -/
structure AudioTriggerConfig where
  threshold : ℚ
  type : TriggerType
  frequencyBin : Option ℕ := none
  cooldownTicks : ℤ
  reaction : TriggerReaction
deriving DecidableEq, Repr

/-- The monitored value of one audio frame: volume, or the selected frequency
bin (`|| 0` when the bin is missing), or `0` when no bin is configured. -/
def monitoredValue (cfg : AudioTriggerConfig) (frame : AudioFrameData) : ℚ :=
  match cfg.type with
  | .volume => frame.volume
  | .frequency =>
      match cfg.frequencyBin with
      | some b => frame.frequencies.getD b 0
      | none => 0

/-- `Math.floor(durationTicks * 0.2)` in `AudioTrigger.generateKeyframes`. -/
def midPointOf (d : ℤ) : ℤ := ⌊(d : ℚ) * (1/5)⌋

/-- The three keyframes one fired pulse pushes: base at `t`, peak at
`t + floor(0.2 * durationTicks)` (easing `config.reaction.easing`, default
`easeOutQuad`), base again at `t + durationTicks` (default `easeInOutQuad`). -/
def pulseKeyframes (cfg : AudioTriggerConfig) (t : ℤ) : List Keyframe :=
  [ { tick := (t : ℚ), value := cfg.reaction.baseValue },
    { tick := ((t + midPointOf cfg.reaction.durationTicks : ℤ) : ℚ)
      value := cfg.reaction.peakValue
      easing := some (cfg.reaction.easing.getD .easeOutQuad) },
    { tick := ((t + cfg.reaction.durationTicks : ℤ) : ℚ)
      value := cfg.reaction.baseValue
      easing := some (cfg.reaction.easing.getD .easeInOutQuad) } ]

/-- The fire condition at tick `t` with previous trigger tick `lastT`:
`val >= threshold && t - lastTriggerTick >= cooldownTicks`. -/
def firesAt (cfg : AudioTriggerConfig) (frame : AudioFrameData) (t lastT : ℤ) : Prop :=
  cfg.threshold ≤ monitoredValue cfg frame ∧ cfg.cooldownTicks ≤ t - lastT

instance (cfg : AudioTriggerConfig) (frame : AudioFrameData) (t lastT : ℤ) :
    Decidable (firesAt cfg frame t lastT) :=
  inferInstanceAs (Decidable (_ ∧ _))

/-- The trigger ticks at which `AudioTrigger.generateKeyframes`'s scan fires,
iterating frames from tick `t` with previous trigger tick `lastT`. -/
def firedTicksFrom (cfg : AudioTriggerConfig) :
    List AudioFrameData → ℤ → ℤ → List ℤ
  | [], _, _ => []
  | f :: fs, t, lastT =>
      if firesAt cfg f t lastT then t :: firedTicksFrom cfg fs (t + 1) t
      else firedTicksFrom cfg fs (t + 1) lastT

/-- All fired trigger ticks of a scan (`lastTriggerTick` starts at
`-cooldownTicks`). -/
def firedTicks (cfg : AudioTriggerConfig) (frames : List AudioFrameData) : List ℤ :=
  firedTicksFrom cfg frames 0 (-cfg.cooldownTicks)

/-- The keyframe-accumulating scan of `AudioTrigger.generateKeyframes`. -/
def generateFrom (cfg : AudioTriggerConfig) :
    List AudioFrameData → ℤ → ℤ → List Keyframe
  | [], _, _ => []
  | f :: fs, t, lastT =>
      if firesAt cfg f t lastT then
        pulseKeyframes cfg t ++ generateFrom cfg fs (t + 1) t
      else generateFrom cfg fs (t + 1) lastT

/-- `AudioTrigger.generateKeyframes` from `src/core/AudioTrigger.ts`:
scan all frames, then sort the emitted keyframes by tick. -/
def generateKeyframes (cfg : AudioTriggerConfig) (frames : List AudioFrameData) :
    List Keyframe :=
  sortKfs (generateFrom cfg frames 0 (-cfg.cooldownTicks))

/-- `samplesPerFrame = sampleRate / fps` in `AudioAnalyzer.analyze`. -/
def samplesPerFrame (sampleRate fps : ℚ) : ℚ := sampleRate / fps

/-- `totalFrames = Math.floor(channelData.length / samplesPerFrame)` in
`AudioAnalyzer.analyze` (a negative or undefined ratio yields zero frames,
as the JS loop then runs zero iterations). -/
def analyzeTotalFrames (numSamples : ℕ) (sampleRate fps : ℚ) : ℕ :=
  (⌊(numSamples : ℚ) / samplesPerFrame sampleRate fps⌋).toNat

/-- `Math.pow(2, Math.round(Math.log2(n)))`: the power of two nearest to `n`
in log space (rounding half up), and `0` for `n = 0`. The comparison
`log2 n ≥ k + 1/2` is expressed exactly as `2^(2k+1) ≤ n^2`. -/
def nearestPow2 (n : ℕ) : ℕ :=
  if n = 0 then 0
  else
    let k := Nat.log2 n
    if 2 ^ (2 * k + 1) ≤ n ^ 2 then 2 ^ (k + 1) else 2 ^ k

/-- One iteration of `AudioAnalyzer.analyze`'s frame loop: slice the window,
compute RMS volume (host `Math.sqrt` passed as `sqrtq`), run the external
FFT magnitude computation (`fftMag`) on the power-of-two-sized padded window,
and block-average the magnitudes into `bins` bins (`|| 0` for missing
entries). -/
def analyzeWindow (sqrtq : ℚ → ℚ) (fftMag : List ℚ → List ℚ) (samples : List ℚ)
    (spf : ℚ) (bins : ℕ) (i : ℕ) : AudioFrameData :=
  let start : ℤ := ⌊(i : ℚ) * spf⌋
  let stop : ℤ := ⌊(start : ℚ) + spf⌋
  let frameSamples := (samples.drop start.toNat).take (stop - start).toNat
  let sumSquared := (frameSamples.map (fun s => s * s)).sum
  let rms := sqrtq (sumSquared / (frameSamples.length : ℚ))
  let fftSize := nearestPow2 frameSamples.length
  let taken := frameSamples.take fftSize
  let padded := taken ++ List.replicate (fftSize - taken.length) 0
  let magnitudes := fftMag padded
  let binSize := magnitudes.length / bins
  let freqs := (List.range bins).map (fun b =>
    (((List.range binSize).map (fun j => magnitudes.getD (b * binSize + j) 0)).sum)
      / (binSize : ℚ))
  { volume := rms, frequencies := freqs }

/-- The frame array built by `AudioAnalyzer.analyze` (the pure analysis of the
decoded mono samples; file IO and decoding are external collaborators). -/
def analyze (sqrtq : ℚ → ℚ) (fftMag : List ℚ → List ℚ) (samples : List ℚ)
    (sampleRate fps : ℚ) (bins : ℕ) : List AudioFrameData :=
  (List.range (analyzeTotalFrames samples.length sampleRate fps)).map
    (analyzeWindow sqrtq fftMag samples (samplesPerFrame sampleRate fps) bins)

/-- A keyframe list with a duplicated tick, used to exercise `resolve`'s
boundary branch against its bracketing branch. -/
def kfsDup : List Keyframe :=
  [{ tick := 0, value := .num 0 }, { tick := 0, value := .num 5 },
   { tick := 10, value := .num 100 }]

/-- The spec's own interpolation example:
`[{tick:0,value:0},{tick:10,value:100,easing:"linear"}]`. -/
def kfsLinear : List Keyframe :=
  [{ tick := 0, value := .num 0 },
   { tick := 10, value := .num 100, easing := some .linear }]

/-- First keyframe of `kfsLinear`. -/
def kfA : Keyframe := { tick := 0, value := .num 0 }

/-- Second keyframe of `kfsLinear`. -/
def kfB : Keyframe := { tick := 10, value := .num 100, easing := some .linear }

/-- An unsorted two-keyframe list used to instantiate the boundary-clamp
claim. -/
def kfsUnsorted : List Keyframe :=
  [{ tick := 5, value := .num 1 }, { tick := 2, value := .num 7 }]

/-- A 5-tick fade exit transition used in concrete instances. -/
def sampleFadeExit : Transition := { type := .fade, durationTicks := 5 }

/-- A 10-tick clip with a 5-tick fade exit. -/
def sampleFadeClip : Clip :=
  { id := "c1", blueprintId := "rect", startTick := 0, durationTicks := 10,
    exit := some sampleFadeExit }

/-- A 5-tick clip whose 4-tick entry fade and 4-tick exit fade overlap. -/
def sampleOverlapClip : Clip :=
  { id := "c2", blueprintId := "rect", startTick := 0, durationTicks := 5,
    entry := some { type := .fade, durationTicks := 4 },
    exit := some { type := .fade, durationTicks := 4 } }

/-- A volume trigger with a 3-tick reaction, used in concrete instances. -/
def pulseCfg : AudioTriggerConfig :=
  { threshold := 1, type := .volume, cooldownTicks := 1,
    reaction := { durationTicks := 3, peakValue := .num 2, baseValue := .num 0 } }

/-- A volume trigger with a 2-tick cooldown, used in concrete instances. -/
def cooldownCfg : AudioTriggerConfig :=
  { threshold := 1, type := .volume, cooldownTicks := 2,
    reaction := { durationTicks := 4, peakValue := .num 1, baseValue := .num 0 } }

/-- Three consecutive loud audio frames. -/
def loudFrames : List AudioFrameData :=
  [{ volume := 1, frequencies := [] }, { volume := 1, frequencies := [] },
   { volume := 1, frequencies := [] }]

/-- A job state used to instantiate the orchestration theorems on concrete
input: a 100-tick job with one registered clip. -/
def sampleEngine : EngineState :=
  { clips := [{ id := "box-1", blueprintId := "rect", startTick := 0,
                durationTicks := 100 }]
    audioData := []
    cameraAnimations := []
    registry := ["rect"] }

section ChunkLemmas

/-- Once a chunk's start reaches `totalTicks`, the loop emits nothing. -/
theorem chunksFrom_eq_nil {total s i : ℕ} (h : total ≤ i * s) :
    ∀ n, chunksFrom total s i n = [] := by
  intro n
  cases n with
  | zero => rfl
  | succ m => simp [chunksFrom, h]

/-- Main invariant of the chunk-building loop: if the current start is still
inside the job and the remaining iterations suffice to cover it, the emitted
chunks start at `i*s`, are contiguous, end at `totalTicks`, and their tick
ranges concatenate to exactly the remaining tick range. -/
theorem chunksFrom_spec (total s : ℕ) :
    ∀ n i, i * s < total → total ≤ (i + n) * s →
      (chunksFrom total s i n).flatMap chunkTicks = List.range' (i * s) (total - i * s) ∧
      List.Chain' (fun p q : ℕ × ℕ => p.2 = q.1) (chunksFrom total s i n) ∧
      (chunksFrom total s i n).head?.map Prod.fst = some (i * s) ∧
      ((chunksFrom total s i n).getLast?).map Prod.snd = some total := by
  intro n
  induction n with
  | zero => intro i hi hn; simp only [Nat.add_zero] at hn; omega
  | succ m ih =>
    intro i hi hn
    have hguard : ¬ total ≤ i * s := not_le.mpr hi
    rw [chunksFrom, if_neg hguard]
    by_cases hend : total ≤ (i + 1) * s
    · have hmin : min ((i + 1) * s) total = total := min_eq_right hend
      have hnil : chunksFrom total s (i + 1) m = [] :=
        chunksFrom_eq_nil (by simpa using hend) m
      refine ⟨?_, ?_, ?_, ?_⟩
      · simp [hnil, hmin, chunkTicks]
      · simp [hnil, hmin]
      · simp [hmin]
      · simp [hnil, hmin]
    · push_neg at hend
      have hmin : min ((i + 1) * s) total = (i + 1) * s := min_eq_left hend.le
      have hrec := ih (i + 1) hend (by have : i + 1 + m = i + (m + 1) := by omega
                                       rw [this]; exact hn)
      obtain ⟨hflat, hchain, hhead, hlast⟩ := hrec
      have hne : chunksFrom total s (i + 1) m ≠ [] := by
        intro hcontra
        rw [hcontra] at hhead
        simp at hhead
      refine ⟨?_, ?_, ?_, ?_⟩
      · have hstep : chunkTicks (i * s, (i + 1) * s) = List.range' (i * s) s := by
          have : (i + 1) * s - i * s = s := by ring_nf; omega
          simp [chunkTicks, this]
        have happ := List.range'_append (i * s) s (total - (i + 1) * s) 1
        simp only [one_mul] at happ
        have harith1 : i * s + s = (i + 1) * s := by ring
        have harith2 : total - (i + 1) * s + s = total - i * s := by
          have h1 : (i + 1) * s = i * s + s := by ring
          omega
        rw [harith1] at happ
        rw [List.flatMap_cons, hflat, hmin, hstep, happ, harith2]
      · rw [hmin, List.chain'_cons']
        refine ⟨?_, hchain⟩
        intro q hq
        rcases hq' : (chunksFrom total s (i + 1) m).head? with _ | q'
        · rw [hq'] at hq; simp at hq
        · rw [hq'] at hq hhead
          simp at hq hhead
          subst hq
          exact hhead.symm
      · simp [hmin]
      · rcases hlist : chunksFrom total s (i + 1) m with _ | ⟨r, rs⟩
        · exact absurd hlist hne
        · rw [hlist] at hlast
          rw [List.getLast?_cons_cons, hlast]

/-- The ceiling division `chunkSize` large enough: `concurrency` chunks of
size `chunkSize` cover the whole job. -/
theorem total_le_concurrency_mul_chunkSize (total concurrency : ℕ)
    (hc : 0 < concurrency) :
    total ≤ concurrency * chunkSize total concurrency := by
  unfold chunkSize
  have hdm := Nat.div_add_mod (total + concurrency - 1) concurrency
  have hmod : (total + concurrency - 1) % concurrency < concurrency :=
    Nat.mod_lt _ hc
  omega

/-- The concatenated tick ranges of all chunks are exactly `[0, totalTicks)`. -/
theorem chunks_flatMap_eq_range (total concurrency : ℕ)
    (ht : 0 < total) (hc : 0 < concurrency) :
    (chunks total concurrency).flatMap chunkTicks = List.range total := by
  have hs := chunksFrom_spec total (chunkSize total concurrency) concurrency 0
    (by simpa using ht)
    (by simpa using total_le_concurrency_mul_chunkSize total concurrency hc)
  rw [chunks, hs.1]
  simp [List.range_eq_range']

end ChunkLemmas

/-- Claim C2: for every positive `totalTicks` and `concurrency`, the chunks
built by `MotionFactory.render` are contiguous and non-overlapping: the list
is non-empty, the first chunk starts at tick 0, each chunk's exclusive end
equals the next chunk's start, the last chunk ends exactly at `totalTicks`,
and concatenated in index order their tick ranges cover `[0, totalTicks)`
exactly once. -/
theorem chunks_partition_exact (total concurrency : ℕ)
    (ht : 0 < total) (hc : 0 < concurrency) :
    chunks total concurrency ≠ [] ∧
    (chunks total concurrency).head?.map Prod.fst = some 0 ∧
    List.Chain' (fun p q : ℕ × ℕ => p.2 = q.1) (chunks total concurrency) ∧
    ((chunks total concurrency).getLast?).map Prod.snd = some total ∧
    (chunks total concurrency).flatMap chunkTicks = List.range total := by
  have hs := chunksFrom_spec total (chunkSize total concurrency) concurrency 0
    (by simpa using ht)
    (by simpa using total_le_concurrency_mul_chunkSize total concurrency hc)
  obtain ⟨hflat, hchain, hhead, hlast⟩ := hs
  refine ⟨?_, ?_, hchain, hlast, ?_⟩
  · intro hcontra
    rw [chunks] at hcontra
    rw [hcontra] at hhead
    simp at hhead
  · simpa using hhead
  · rw [chunks, hflat]
    simp [List.range_eq_range']

/-- Witness for C2 at `totalTicks = 100`, `concurrency = 4`. -/
theorem chunks_partition_exact_witness :
    0 < 100 ∧ 0 < 4 ∧
    (chunks 100 4 ≠ [] ∧
     (chunks 100 4).head?.map Prod.fst = some 0 ∧
     List.Chain' (fun p q : ℕ × ℕ => p.2 = q.1) (chunks 100 4) ∧
     ((chunks 100 4).getLast?).map Prod.snd = some 100 ∧
     (chunks 100 4).flatMap chunkTicks = List.range 100) :=
  ⟨by decide, by decide, chunks_partition_exact 100 4 (by decide) (by decide)⟩

/-- Claim C1: the per-tick values computed by the engine are a function of the
tick alone and independent of how the tick range is partitioned into chunks:
rendering a job with `concurrency = 1` and with `concurrency = 4` produces
identical frame sequences of length `totalTicks` (same active-clip sets,
opacities, transforms, audio and prop values at every tick), and for every
positive concurrency the job renders exactly the per-tick frames of
`[0, totalTicks)` in order. -/
theorem renderJob_concurrency_independent (pow2 : ℚ → ℚ) (E : EngineState)
    (total : ℕ) (ht : 0 < total) :
    renderJob pow2 E total 1 = renderJob pow2 E total 4 ∧
    (renderJob pow2 E total 1).length = total ∧
    (renderJob pow2 E total 4).length = total ∧
    ∀ concurrency, 0 < concurrency →
      renderJob pow2 E total concurrency =
        (List.range total).map (renderToLayers pow2 E) := by
  have key : ∀ concurrency, 0 < concurrency →
      renderJob pow2 E total concurrency =
        (List.range total).map (renderToLayers pow2 E) := by
    intro c hc
    rw [renderJob]
    have : ((chunks total c).flatMap fun p =>
        (chunkTicks p).map (renderToLayers pow2 E)) =
        ((chunks total c).flatMap chunkTicks).map (renderToLayers pow2 E) := by
      rw [List.map_flatMap]
    rw [this, chunks_flatMap_eq_range total c ht hc]
  refine ⟨?_, ?_, ?_, key⟩
  · rw [key 1 (by norm_num), key 4 (by norm_num)]
  · rw [key 1 (by norm_num)]; simp
  · rw [key 4 (by norm_num)]; simp

/-- Witness for C1: the concrete 100-tick sample job. -/
theorem renderJob_concurrency_independent_witness :
    0 < 100 ∧
    (renderJob (fun q => q) sampleEngine 100 1 = renderJob (fun q => q) sampleEngine 100 4 ∧
     (renderJob (fun q => q) sampleEngine 100 1).length = 100 ∧
     (renderJob (fun q => q) sampleEngine 100 4).length = 100 ∧
     ∀ concurrency, 0 < concurrency →
       renderJob (fun q => q) sampleEngine 100 concurrency =
         (List.range 100).map (renderToLayers (fun q => q) sampleEngine)) :=
  ⟨by decide, renderJob_concurrency_independent (fun q => q) sampleEngine 100 (by decide)⟩

section AnimatorLemmas

/-- The head of a `kfLE`-sorted list has the minimal tick. -/
theorem pairwise_head_le {k : Keyframe} {ks : List Keyframe}
    (h : List.Pairwise kfLE (k :: ks)) : ∀ x ∈ k :: ks, k.tick ≤ x.tick := by
  intro x hx
  rcases List.mem_cons.mp hx with rfl | hx'
  · exact le_refl _
  · exact (List.pairwise_cons.mp h).1 x hx'

/-- `lastKF` returns an element of the list. -/
theorem lastKF_mem (k : Keyframe) (ks : List Keyframe) : lastKF k ks ∈ k :: ks := by
  induction ks generalizing k with
  | nil => simp [lastKF]
  | cons k' ks ih =>
    simp only [lastKF]
    exact List.mem_cons_of_mem k (ih k')

/-- The last element of a `kfLE`-sorted list has the maximal tick. -/
theorem le_lastKF {k : Keyframe} {ks : List Keyframe}
    (h : List.Pairwise kfLE (k :: ks)) :
    ∀ x ∈ k :: ks, x.tick ≤ (lastKF k ks).tick := by
  induction ks generalizing k with
  | nil =>
    intro x hx
    simp only [List.mem_singleton] at hx
    subst hx
    simp [lastKF]
  | cons k' ks ih =>
    intro x hx
    have h' : List.Pairwise kfLE (k' :: ks) := (List.pairwise_cons.mp h).2
    have hk : kfLE k k' := (List.pairwise_cons.mp h).1 k' (by simp)
    simp only [lastKF]
    rcases List.mem_cons.mp hx with rfl | hx'
    · exact le_trans hk (ih h' k' (by simp))
    · exact ih h' x hx'

/-- Unfolding of one step of the adjacent-pair scan. -/
theorem findPair_cons_cons (tick : ℚ) (x y : Keyframe) (rest : List Keyframe) :
    findPair tick (x :: y :: rest) =
      if x.tick ≤ tick ∧ tick < y.tick then some (x, y)
      else findPair tick (y :: rest) := rfl

/-- In a sorted list, the scan finds exactly the (unique) adjacent pair that
brackets the tick. -/
theorem findPair_eq_of_sorted (tick : ℚ) (k1 k2 : Keyframe) (post : List Keyframe)
    (h1 : k1.tick ≤ tick) (h2 : tick < k2.tick) :
    ∀ pre : List Keyframe, List.Pairwise kfLE (pre ++ k1 :: k2 :: post) →
      findPair tick (pre ++ k1 :: k2 :: post) = some (k1, k2) := by
  intro pre
  induction pre with
  | nil =>
    intro _
    rw [List.nil_append, findPair_cons_cons, if_pos ⟨h1, h2⟩]
  | cons a pre ih =>
    intro hp
    have hp' : List.Pairwise kfLE (pre ++ k1 :: k2 :: post) :=
      (List.pairwise_cons.mp (List.cons_append a pre _ ▸ hp)).2
    have hrec := ih hp'
    cases pre with
    | nil =>
      have hcond : ¬ (a.tick ≤ tick ∧ tick < k1.tick) := by
        rintro ⟨-, hlt⟩
        exact absurd h1 (not_le.mpr hlt)
      rw [List.nil_append] at hrec
      rw [List.cons_append, List.nil_append, findPair_cons_cons, if_neg hcond]
      exact hrec
    | cons b pre' =>
      have hp'' : List.Pairwise kfLE (b :: (pre' ++ k1 :: k2 :: post)) := by
        rwa [List.cons_append] at hp'
      have hbk1 : kfLE b k1 :=
        (List.pairwise_cons.mp hp'').1 k1 (by simp)
      have hcond : ¬ (a.tick ≤ tick ∧ tick < b.tick) := by
        rintro ⟨-, hlt⟩
        exact absurd (le_trans hbk1 h1) (not_le.mpr hlt)
      rw [List.cons_append] at hrec
      rw [List.cons_append, List.cons_append, findPair_cons_cons, if_neg hcond]
      exact hrec

/-- Unfolding of `resolve` once the sorted list is known to be non-empty. -/
theorem resolve_eq_of_sortKfs {pow2 : ℚ → ℚ} {kfs : List Keyframe} {tick : ℚ}
    {k : Keyframe} {ks : List Keyframe} (hs : sortKfs kfs = k :: ks) :
    resolve pow2 kfs tick =
      if tick ≤ k.tick then some k.value
      else if (lastKF k ks).tick ≤ tick then some (lastKF k ks).value
      else
        match findPair tick (k :: ks) with
        | some (k1, k2) =>
            some (interpolate k1.value k2.value
              (easingFun pow2 (k2.easing.getD .linear)
                ((tick - k1.tick) / (k2.tick - k1.tick))))
        | none => some k.value := by
  unfold resolve
  rw [hs]

/-- The sorted copy `resolve` works on is sorted and a permutation of the
input. -/
theorem sortKfs_sorted (kfs : List Keyframe) : List.Pairwise kfLE (sortKfs kfs) :=
  List.sorted_insertionSort kfLE kfs

theorem sortKfs_perm (kfs : List Keyframe) : (sortKfs kfs).Perm kfs :=
  List.perm_insertionSort kfLE kfs

/-- Core of claim C3: when the tick lies strictly after the first sorted
keyframe and an adjacent sorted pair brackets it, `resolve` interpolates
between that pair with the second keyframe's easing. -/
theorem resolve_bracket_core (pow2 : ℚ → ℚ) (kfs : List Keyframe) (tick : ℚ)
    (pre post : List Keyframe) (k1 k2 : Keyframe)
    (hs : sortKfs kfs = pre ++ k1 :: k2 :: post)
    (h1 : k1.tick ≤ tick) (h2 : tick < k2.tick)
    (hmin : ∃ k ∈ kfs, k.tick < tick) :
    resolve pow2 kfs tick = some (interpolate k1.value k2.value
      (easingFun pow2 (k2.easing.getD .linear)
        ((tick - k1.tick) / (k2.tick - k1.tick)))) := by
  obtain ⟨k, ks, hks⟩ : ∃ k ks, pre ++ k1 :: k2 :: post = k :: ks := by
    cases pre with
    | nil => exact ⟨k1, k2 :: post, rfl⟩
    | cons a pre' => exact ⟨a, pre' ++ k1 :: k2 :: post, rfl⟩
  have hs' : sortKfs kfs = k :: ks := by rw [hs, hks]
  have hsorted : List.Pairwise kfLE (k :: ks) := by
    have h := sortKfs_sorted kfs
    rwa [hs'] at h
  have hk2mem : k2 ∈ k :: ks := by rw [← hks]; simp
  obtain ⟨km, hkmm, hkmlt⟩ := hmin
  have hkm2 : km ∈ k :: ks := by
    rw [← hs']
    exact (sortKfs_perm kfs).mem_iff.mpr hkmm
  have hb1 : ¬ tick ≤ k.tick :=
    not_le.mpr (lt_of_le_of_lt (pairwise_head_le hsorted km hkm2) hkmlt)
  have hb2 : ¬ (lastKF k ks).tick ≤ tick :=
    not_le.mpr (lt_of_lt_of_le h2 (le_lastKF hsorted k2 hk2mem))
  have hfp : findPair tick (k :: ks) = some (k1, k2) := by
    rw [← hks]
    exact findPair_eq_of_sorted tick k1 k2 post h1 h2 pre (by rwa [hks])
  rw [resolve_eq_of_sortKfs hs', if_neg hb1, if_neg hb2, hfp]

end AnimatorLemmas

/-- Claim C3, counterexample to the unamended statement: for the keyframe
list `[{tick:0,value:0}, {tick:0,value:5}, {tick:10,value:100}]` at tick 0,
the sorted list contains the adjacent bracketing pair
`({tick:0,value:5}, {tick:10,value:100})` with both values numeric, but
`resolve` returns the first keyframe's value 0 (boundary branch), not the
claimed interpolation value 5. -/
theorem resolve_bracketing_counterexample :
    sortKfs kfsDup = kfsDup ∧
    ((kfsDup.get? 1).map Keyframe.tick = some 0 ∧
      (kfsDup.get? 2).map Keyframe.tick = some 10) ∧
    resolve (fun q => q) kfsDup 0 = some (.num 0) ∧
    Value.num 0 ≠ Value.num (5 + (100 - 5) *
      easingFun (fun q => q) .linear ((0 - 0) / (10 - 0))) := by
  refine ⟨by decide, ⟨by decide, by decide⟩, by decide, ?_⟩
  simp only [easingFun, ne_eq, Value.num.injEq]
  norm_num

/-- Claim C3 (amended: the bracketing behaviour additionally requires the tick
to lie strictly after the smallest sorted keyframe tick, since `resolve`'s
first boundary branch otherwise returns the first sorted keyframe's value):
if after sorting an adjacent pair `k1, k2` brackets the tick with
`k1.tick ≤ tick < k2.tick`, some keyframe tick lies strictly below the tick,
and both values are numeric, then `resolve` returns
`k1.value + (k2.value - k1.value) * e(t)` with
`t = (tick - k1.tick)/(k2.tick - k1.tick)` and `e` the easing of `k2`
(linear when absent); in particular
`resolve([{tick:0,value:0},{tick:10,value:100,easing:"linear"}], 5) = 50`. -/
theorem resolve_bracketing_interpolates (pow2 : ℚ → ℚ) (kfs : List Keyframe)
    (tick : ℚ) (pre post : List Keyframe) (k1 k2 : Keyframe) (v1 v2 : ℚ)
    (hs : sortKfs kfs = pre ++ k1 :: k2 :: post)
    (h1 : k1.tick ≤ tick) (h2 : tick < k2.tick)
    (hmin : ∃ k ∈ kfs, k.tick < tick)
    (hv1 : k1.value = .num v1) (hv2 : k2.value = .num v2) :
    resolve pow2 kfs tick = some (.num (v1 + (v2 - v1) *
      easingFun pow2 (k2.easing.getD .linear)
        ((tick - k1.tick) / (k2.tick - k1.tick)))) ∧
    resolve pow2 kfsLinear 5 = some (.num 50) := by
  constructor
  · rw [resolve_bracket_core pow2 kfs tick pre post k1 k2 hs h1 h2 hmin, hv1, hv2]
    rfl
  · have h := resolve_bracket_core pow2 kfsLinear 5 [] [] kfA kfB
      (by decide) (by decide) (by decide) ⟨kfA, by decide⟩
    rw [h]
    have hval : easingFun pow2 (kfB.easing.getD .linear) ((5 - kfA.tick) / (kfB.tick - kfA.tick)) = 1/2 := by
      simp only [kfA, kfB, easingFun, Option.getD]
      norm_num
    simp only [kfA, kfB, interpolate] at hval ⊢
    rw [hval]
    norm_num

/-- Witness for C3 at the spec's own example instance. -/
theorem resolve_bracketing_interpolates_witness :
    (sortKfs kfsLinear = [] ++ kfA :: kfB :: [] ∧
     kfA.tick ≤ (5 : ℚ) ∧ (5 : ℚ) < kfB.tick ∧
     (∃ k ∈ kfsLinear, k.tick < (5 : ℚ)) ∧
     kfA.value = Value.num 0 ∧ kfB.value = Value.num 100) ∧
    (resolve (fun q => q) kfsLinear 5 = some (.num (0 + (100 - 0) *
        easingFun (fun q => q) (kfB.easing.getD .linear)
          ((5 - kfA.tick) / (kfB.tick - kfA.tick)))) ∧
     resolve (fun q => q) kfsLinear 5 = some (.num 50)) :=
  ⟨⟨by decide, by decide, by decide, by decide, by decide, by decide⟩,
   resolve_bracketing_interpolates (fun q => q) kfsLinear 5 [] [] kfA kfB 0 100
     (by decide) (by decide) (by decide) (by decide) (by decide) (by decide)⟩

/-- Claim C4: for every non-empty keyframe list, in any order, `resolve`
clamps to the boundary values: if the tick is at or before every keyframe
tick, it returns the value of a keyframe with the minimal tick; if the tick
is at or after every keyframe tick, it returns the value of a keyframe with
the maximal tick. (The embedding's `resolve` sorts a copy of its input and is
a pure function, so the caller's array is never modified, mirroring the
non-destructive `[...keyframes].sort` of the source.) -/
theorem resolve_endpoint_clamp (pow2 : ℚ → ℚ) (kfs : List Keyframe) (tick : ℚ)
    (hne : kfs ≠ []) :
    ((∀ k ∈ kfs, tick ≤ k.tick) →
      ∃ k, k ∈ kfs ∧ (∀ x ∈ kfs, k.tick ≤ x.tick) ∧
        resolve pow2 kfs tick = some k.value) ∧
    ((∀ k ∈ kfs, k.tick ≤ tick) →
      ∃ k, k ∈ kfs ∧ (∀ x ∈ kfs, x.tick ≤ k.tick) ∧
        resolve pow2 kfs tick = some k.value) := by
  rcases hsk : sortKfs kfs with _ | ⟨k, ks⟩
  · have hp := sortKfs_perm kfs
    rw [hsk] at hp
    exact absurd hp.symm.eq_nil hne
  have hsorted : List.Pairwise kfLE (k :: ks) := by
    have h := sortKfs_sorted kfs
    rwa [hsk] at h
  have hmemk : k ∈ kfs := (sortKfs_perm kfs).mem_iff.mp (by rw [hsk]; simp)
  have htrans : ∀ x ∈ kfs, x ∈ k :: ks := by
    intro x hx
    rw [← hsk]
    exact (sortKfs_perm kfs).mem_iff.mpr hx
  constructor
  · intro hmin
    refine ⟨k, hmemk, ?_, ?_⟩
    · intro x hx
      exact pairwise_head_le hsorted x (htrans x hx)
    · rw [resolve_eq_of_sortKfs hsk, if_pos (hmin k hmemk)]
  · intro hmax
    by_cases hb1 : tick ≤ k.tick
    · refine ⟨k, hmemk, ?_, ?_⟩
      · intro x hx
        exact le_trans (hmax x hx) hb1
      · rw [resolve_eq_of_sortKfs hsk, if_pos hb1]
    · have hlastmem : lastKF k ks ∈ kfs :=
        (sortKfs_perm kfs).mem_iff.mp (by rw [hsk]; exact lastKF_mem k ks)
      refine ⟨lastKF k ks, hlastmem, ?_, ?_⟩
      · intro x hx
        exact le_lastKF hsorted x (htrans x hx)
      · rw [resolve_eq_of_sortKfs hsk, if_neg hb1, if_pos (hmax _ hlastmem)]

/-- Witness for C4 on an unsorted two-keyframe list. -/
theorem resolve_endpoint_clamp_witness :
    kfsUnsorted ≠ [] ∧
    (((∀ k ∈ kfsUnsorted, (1 : ℚ) ≤ k.tick) →
      ∃ k, k ∈ kfsUnsorted ∧ (∀ x ∈ kfsUnsorted, k.tick ≤ x.tick) ∧
        resolve (fun q => q) kfsUnsorted 1 = some k.value) ∧
     ((∀ k ∈ kfsUnsorted, k.tick ≤ (1 : ℚ)) →
      ∃ k, k ∈ kfsUnsorted ∧ (∀ x ∈ kfsUnsorted, x.tick ≤ k.tick) ∧
        resolve (fun q => q) kfsUnsorted 1 = some k.value)) :=
  ⟨by decide, resolve_endpoint_clamp (fun q => q) kfsUnsorted 1 (by decide)⟩

section EngineLemmas

/-- `easeInOutQuad` maps `[0, 1]` into `[0, 1]`. -/
theorem easeInOutQuad_bounds {t : ℚ} (h0 : 0 ≤ t) (h1 : t ≤ 1) :
    0 ≤ easeInOutQuad t ∧ easeInOutQuad t ≤ 1 := by
  unfold easeInOutQuad
  split <;> constructor <;> nlinarith

/-- `easeInOutQuad 1 = 1`. -/
theorem easeInOutQuad_one : easeInOutQuad 1 = 1 := by
  norm_num [easeInOutQuad]

/-- Closed form of the opacity after the entry block. -/
theorem entryOpacity_eq (c : Clip) (localTick : ℤ) :
    entryOpacity c localTick =
      match c.entry with
      | some tr =>
          if localTick < tr.durationTicks then
            (if tr.type = .fade then
              easeInOutQuad ((localTick : ℚ) / (tr.durationTicks : ℚ)) else 1)
          else 1
      | none => 1 := by
  unfold entryOpacity entryState
  cases c.entry with
  | none => rfl
  | some tr =>
    by_cases hlt : localTick < tr.durationTicks
    · simp [hlt]
    · simp [hlt]

/-- The opacity after the entry block lies in `[0, 1]` for a non-negative
local tick. -/
theorem entryOpacity_bounds (c : Clip) (localTick : ℤ) (h : 0 ≤ localTick) :
    0 ≤ entryOpacity c localTick ∧ entryOpacity c localTick ≤ 1 := by
  rw [entryOpacity_eq]
  cases hc : c.entry with
  | none => norm_num
  | some tr =>
    simp only
    by_cases hlt : localTick < tr.durationTicks
    · rw [if_pos hlt]
      by_cases hty : tr.type = .fade
      · rw [if_pos hty]
        have hdpos : (0 : ℚ) < (tr.durationTicks : ℚ) := by
          exact_mod_cast lt_of_le_of_lt h hlt
        have ht0 : 0 ≤ (localTick : ℚ) / (tr.durationTicks : ℚ) :=
          div_nonneg (by exact_mod_cast h) hdpos.le
        have ht1 : (localTick : ℚ) / (tr.durationTicks : ℚ) ≤ 1 := by
          rw [div_le_one hdpos]
          exact_mod_cast hlt.le
        exact easeInOutQuad_bounds ht0 ht1
      · rw [if_neg hty]; norm_num
    · rw [if_neg hlt]; norm_num

end EngineLemmas

/-- Claim C5: for an active clip with a fade exit transition of positive
duration, the resulting opacity equals, throughout the last
`exit.durationTicks` ticks of the clip's active interval, the minimum of the
opacity computed before the exit block (1, or the entry-fade value when an
entry fade overlaps) and the eased exit value at progress
`t = (durationTicks - localTick) / exit.durationTicks`; outside that window
the exit leaves the opacity unchanged. (At the first tick of the window the
eased value is `easeInOutQuad 1 = 1`, so the engine's strict
`ticksRemaining < durationTicks` guard computes the same opacity.) -/
theorem exit_fade_window_opacity (c : Clip) (tick : ℤ) (tr : Transition)
    (hact : activeAt tick c) (hx : c.exit = some tr) (hty : tr.type = .fade)
    (hdur : 0 < tr.durationTicks) :
    clipOpacity c tick =
      if c.durationTicks - tr.durationTicks ≤ tick - c.startTick then
        min (entryOpacity c (tick - c.startTick))
          (easeInOutQuad
            (((c.durationTicks - (tick - c.startTick) : ℤ) : ℚ) / (tr.durationTicks : ℚ)))
      else entryOpacity c (tick - c.startTick) := by
  obtain ⟨ha1, ha2⟩ := hact
  have hL0 : 0 ≤ tick - c.startTick := sub_nonneg.mpr ha1
  have hrem : 0 < c.durationTicks - (tick - c.startTick) := by omega
  unfold clipOpacity transState exitState entryOpacity
  rw [hx]
  simp only [hty]
  by_cases hlt : c.durationTicks - (tick - c.startTick) < tr.durationTicks
  · rw [if_pos hlt, if_pos (by omega : c.durationTicks - tr.durationTicks ≤ tick - c.startTick)]
    simp
  · rw [if_neg hlt]
    by_cases heq : c.durationTicks - (tick - c.startTick) = tr.durationTicks
    · rw [if_pos (by omega : c.durationTicks - tr.durationTicks ≤ tick - c.startTick)]
      rw [heq]
      have hne : (tr.durationTicks : ℚ) ≠ 0 := by
        exact_mod_cast hdur.ne'
      rw [div_self hne, easeInOutQuad_one]
      have hb := entryOpacity_bounds c (tick - c.startTick) hL0
      rw [entryOpacity] at hb
      exact (min_eq_left hb.2).symm
    · rw [if_neg (by omega : ¬ c.durationTicks - tr.durationTicks ≤ tick - c.startTick)]

/-- Witness for C5: a 10-tick clip with a 5-tick fade exit, at global tick 7. -/
theorem exit_fade_window_opacity_witness :
    (activeAt 7 sampleFadeClip ∧ sampleFadeClip.exit = some sampleFadeExit ∧
     sampleFadeExit.type = .fade ∧ 0 < sampleFadeExit.durationTicks) ∧
    clipOpacity sampleFadeClip 7 =
      (if sampleFadeClip.durationTicks - sampleFadeExit.durationTicks ≤
          7 - sampleFadeClip.startTick then
        min (entryOpacity sampleFadeClip (7 - sampleFadeClip.startTick))
          (easeInOutQuad
            (((sampleFadeClip.durationTicks - (7 - sampleFadeClip.startTick) : ℤ) : ℚ) /
              (sampleFadeExit.durationTicks : ℚ)))
      else entryOpacity sampleFadeClip (7 - sampleFadeClip.startTick)) :=
  ⟨⟨by decide, by decide, by decide, by decide⟩,
   exit_fade_window_opacity sampleFadeClip 7 sampleFadeExit
     (by decide) (by decide) (by decide) (by decide)⟩

/-- Claim C10: for every clip active at a tick, under any combination of
entry and exit transitions with positive durations, the opacity the engine
computes lies in `[0, 1]`. -/
theorem clip_opacity_unit_interval (c : Clip) (tick : ℤ)
    (hact : activeAt tick c)
    (_hentry : ∀ tr, c.entry = some tr → 0 < tr.durationTicks)
    (_hexit : ∀ tr, c.exit = some tr → 0 < tr.durationTicks) :
    0 ≤ clipOpacity c tick ∧ clipOpacity c tick ≤ 1 := by
  obtain ⟨ha1, ha2⟩ := hact
  have hL0 : 0 ≤ tick - c.startTick := sub_nonneg.mpr ha1
  have hrem : 0 < c.durationTicks - (tick - c.startTick) := by omega
  have hEb := entryOpacity_bounds c (tick - c.startTick) hL0
  rw [entryOpacity] at hEb
  unfold clipOpacity transState exitState
  cases hx : c.exit with
  | none => exact hEb
  | some tr =>
    simp only
    by_cases hlt : c.durationTicks - (tick - c.startTick) < tr.durationTicks
    · rw [if_pos hlt]
      have hdpos : (0 : ℚ) < (tr.durationTicks : ℚ) := by
        exact_mod_cast lt_trans hrem hlt
      have ht0 : 0 ≤ ((c.durationTicks - (tick - c.startTick) : ℤ) : ℚ) / (tr.durationTicks : ℚ) :=
        div_nonneg (by exact_mod_cast hrem.le) hdpos.le
      have ht1 : ((c.durationTicks - (tick - c.startTick) : ℤ) : ℚ) / (tr.durationTicks : ℚ) ≤ 1 := by
        rw [div_le_one hdpos]
        exact_mod_cast hlt.le
      have heb := easeInOutQuad_bounds ht0 ht1
      by_cases hf : tr.type = .fade
      · rw [if_pos hf]
        constructor
        · exact le_min hEb.1 heb.1
        · exact le_trans (min_le_left _ _) hEb.2
      · rw [if_neg hf]
        exact hEb
    · rw [if_neg hlt]
      exact hEb

/-- Witness for C10: a clip with overlapping entry and exit fades. -/
theorem clip_opacity_unit_interval_witness :
    (activeAt 3 sampleOverlapClip ∧
     (∀ tr, sampleOverlapClip.entry = some tr → 0 < tr.durationTicks) ∧
     (∀ tr, sampleOverlapClip.exit = some tr → 0 < tr.durationTicks)) ∧
    (0 ≤ clipOpacity sampleOverlapClip 3 ∧ clipOpacity sampleOverlapClip 3 ≤ 1) :=
  ⟨⟨by decide, by decide, by decide⟩,
   clip_opacity_unit_interval sampleOverlapClip 3 (by decide) (by decide) (by decide)⟩

/-- Every `addClip` re-sorts, so sortedness is preserved by any `foldl`. -/
theorem foldl_addClip_sorted :
    ∀ (cs : List Clip) (init : List Clip),
      List.Sorted clipLE init → List.Sorted clipLE (cs.foldl addClip init) := by
  intro cs
  induction cs with
  | nil => intro init h; simpa using h
  | cons c cs ih =>
    intro init _
    rw [List.foldl_cons]
    exact ih (addClip init c) (List.sorted_insertionSort clipLE (init ++ [c]))

/-- Claim C6: after any sequence of `addClip` calls on a fresh engine, the
clip list is sorted non-decreasing by `(layer, startTick)` (a missing layer
counting as 0) — the ordering invariant re-established by every insertion. -/
theorem addClip_sorted_invariant (cs : List Clip) :
    List.Sorted clipLE (addClips cs) :=
  foldl_addClip_sorted cs [] List.sorted_nil

section TriggerLemmas

/-- Every tick fired from state `(t, lastT)` is at least `t` and at least a
cooldown after `lastT`. -/
theorem firedTicksFrom_lb (cfg : AudioTriggerConfig) (_hcd : 0 ≤ cfg.cooldownTicks) :
    ∀ (frames : List AudioFrameData) (t lastT : ℤ),
      ∀ x ∈ firedTicksFrom cfg frames t lastT,
        t ≤ x ∧ cfg.cooldownTicks ≤ x - lastT := by
  intro frames
  induction frames with
  | nil => intro t lastT x hx; simp [firedTicksFrom] at hx
  | cons f fs ih =>
    intro t lastT x hx
    simp only [firedTicksFrom] at hx
    by_cases hfire : firesAt cfg f t lastT
    · rw [if_pos hfire] at hx
      rcases List.mem_cons.mp hx with rfl | hx'
      · exact ⟨le_refl _, hfire.2⟩
      · obtain ⟨h1, h2⟩ := ih (t + 1) t x hx'
        have h3 := hfire.2
        exact ⟨by omega, by omega⟩
    · rw [if_neg hfire] at hx
      obtain ⟨h1, h2⟩ := ih (t + 1) lastT x hx
      exact ⟨by omega, h2⟩

/-- The keyframe scan is the pulse expansion of the fired-tick scan. -/
theorem generateFrom_eq_flatMap (cfg : AudioTriggerConfig) :
    ∀ (frames : List AudioFrameData) (t lastT : ℤ),
      generateFrom cfg frames t lastT =
        (firedTicksFrom cfg frames t lastT).flatMap (pulseKeyframes cfg) := by
  intro frames
  induction frames with
  | nil => intro t lastT; simp [generateFrom, firedTicksFrom]
  | cons f fs ih =>
    intro t lastT
    simp only [generateFrom, firedTicksFrom]
    by_cases hfire : firesAt cfg f t lastT
    · rw [if_pos hfire, if_pos hfire, List.flatMap_cons, ih]
    · rw [if_neg hfire, if_neg hfire, ih]

end TriggerLemmas

/-- Claim C7: with a positive cooldown, any two trigger ticks fired by the
scan differ by at least `cooldownTicks` (a trigger fires at tick `t` only
when the value reaches the threshold and `t` minus the previous trigger tick,
initialised to `-cooldownTicks`, is at least `cooldownTicks`). -/
theorem audio_trigger_cooldown (cfg : AudioTriggerConfig)
    (frames : List AudioFrameData) (h : 0 < cfg.cooldownTicks) :
    List.Pairwise (fun a b : ℤ => cfg.cooldownTicks ≤ b - a)
      (firedTicks cfg frames) := by
  have haux : ∀ (fr : List AudioFrameData) (t lastT : ℤ),
      List.Pairwise (fun a b : ℤ => cfg.cooldownTicks ≤ b - a)
        (firedTicksFrom cfg fr t lastT) := by
    intro fr
    induction fr with
    | nil => intro t lastT; simp [firedTicksFrom]
    | cons f fs ih =>
      intro t lastT
      simp only [firedTicksFrom]
      by_cases hfire : firesAt cfg f t lastT
      · rw [if_pos hfire]
        refine List.pairwise_cons.mpr ⟨?_, ih (t + 1) t⟩
        intro b hb
        exact (firedTicksFrom_lb cfg h.le fs (t + 1) t b hb).2
      · rw [if_neg hfire]
        exact ih (t + 1) lastT
  exact haux frames 0 (-cfg.cooldownTicks)

/-- Witness for C7: three consecutive loud frames under a 2-tick cooldown. -/
theorem audio_trigger_cooldown_witness :
    0 < cooldownCfg.cooldownTicks ∧
    List.Pairwise (fun a b : ℤ => cooldownCfg.cooldownTicks ≤ b - a)
      (firedTicks cooldownCfg loudFrames) :=
  ⟨by decide, audio_trigger_cooldown cooldownCfg loudFrames (by decide)⟩

/-- Claim C8, counterexample to the unamended statement: with a 3-tick
reaction, the code places the peak keyframe at
`t + Math.floor(0.2 * durationTicks) = t + 0`, not at
`t + ceil(0.2 * durationTicks) = t + 1` as claimed: for one loud frame the
pulse fires at tick 0 and no generated peak keyframe has tick 1. -/
theorem trigger_peak_tick_counterexample :
    generateKeyframes pulseCfg [{ volume := 1, frequencies := [] }] =
      [ { tick := 0, value := .num 0 },
        { tick := 0, value := .num 2, easing := some .easeOutQuad },
        { tick := 3, value := .num 0, easing := some .easeInOutQuad } ] ∧
    (⌈(pulseCfg.reaction.durationTicks : ℚ) * (1/5)⌉ : ℤ) = 1 ∧
    ∀ k ∈ generateKeyframes pulseCfg [{ volume := 1, frequencies := [] }],
      k.value = pulseCfg.reaction.peakValue → k.tick ≠ ((0 + 1 : ℤ) : ℚ) := by
  have hmid : midPointOf 3 = 0 := by
    unfold midPointOf
    norm_num
  have hfire : firedTicksFrom pulseCfg [{ volume := 1, frequencies := [] }]
      0 (-pulseCfg.cooldownTicks) = [0] := by decide
  have hp : pulseKeyframes pulseCfg 0 =
      [ { tick := 0, value := .num 0 },
        { tick := 0, value := .num 2, easing := some .easeOutQuad },
        { tick := 3, value := .num 0, easing := some .easeInOutQuad } ] := by
    simp only [pulseKeyframes, pulseCfg, hmid]
    norm_num
  have hmain : generateKeyframes pulseCfg [{ volume := 1, frequencies := [] }] =
      [ { tick := 0, value := .num 0 },
        { tick := 0, value := .num 2, easing := some .easeOutQuad },
        { tick := 3, value := .num 0, easing := some .easeInOutQuad } ] := by
    rw [generateKeyframes, generateFrom_eq_flatMap, hfire]
    simp only [List.flatMap_cons, List.flatMap_nil, List.append_nil, hp]
    decide
  refine ⟨hmain, ?_, ?_⟩
  · show (⌈(3 : ℚ) * (1/5)⌉ : ℤ) = 1
    rw [Int.ceil_eq_iff]
    norm_num
  · rw [hmain]
    decide

/-- Claim C8 (amended: the peak keyframe sits at
`t + Math.floor(0.2 * reactionDuration)`, not at the ceiling): whenever the
scan fires at tick `t`, it emits exactly three keyframes for that pulse —
the base value at `t`, the peak value at `t + floor(0.2 * durationTicks)`
with the configured easing (default `easeOutQuad`), and the base value at
`t + durationTicks` with the configured easing (default `easeInOutQuad`) —
and the returned keyframe list is sorted by tick. -/
theorem trigger_pulse_shape (cfg : AudioTriggerConfig)
    (frames : List AudioFrameData) :
    generateKeyframes cfg frames =
      sortKfs ((firedTicks cfg frames).flatMap (fun t =>
        [ { tick := (t : ℚ), value := cfg.reaction.baseValue },
          { tick := ((t + ⌊(cfg.reaction.durationTicks : ℚ) * (1/5)⌋ : ℤ) : ℚ)
            value := cfg.reaction.peakValue
            easing := some (cfg.reaction.easing.getD .easeOutQuad) },
          { tick := ((t + cfg.reaction.durationTicks : ℤ) : ℚ)
            value := cfg.reaction.baseValue
            easing := some (cfg.reaction.easing.getD .easeInOutQuad) } ])) ∧
    List.Sorted kfLE (generateKeyframes cfg frames) := by
  constructor
  · rw [generateKeyframes, generateFrom_eq_flatMap]
    rfl
  · rw [generateKeyframes]
    exact List.sorted_insertionSort kfLE _

/-- Claim C9, counterexample to the unamended statement: `analyze`'s frame
count is determined by the audio length alone — one second of audio at
`sampleRate = 1`, `fps = 1` yields 1 frame, while a 2-second, 1-fps job has
`totalTicks = 2`. -/
theorem analyze_length_counterexample :
    (analyze (fun q => q) (fun l => l) [0] 1 1 32).length = 1 ∧
    jobTotalTicks 2 1 = 2 ∧
    ((analyze (fun q => q) (fun l => l) [0] 1 1 32).length : ℚ) ≠ jobTotalTicks 2 1 := by
  have hlen : (analyze (fun q => q) (fun l => l) [0] 1 1 32).length = 1 := by
    simp [analyze, analyzeTotalFrames, samplesPerFrame]
  refine ⟨hlen, by norm_num [jobTotalTicks], ?_⟩
  rw [hlen]
  norm_num [jobTotalTicks]

/-- Claim C9 (amended: the analyzer emits one entry per full analysis window
of the decoded audio, so the frame count is
`floor(numSamples * fps / sampleRate)`; it equals a job's `totalTicks` only
when the decoded audio spans exactly that many ticks, e.g. when
`numSamples = totalTicks * sampleRate / fps`). -/
theorem analyze_length_formula (sqrtq : ℚ → ℚ) (fftMag : List ℚ → List ℚ)
    (samples : List ℚ) (sampleRate fps : ℚ) (bins : ℕ)
    (hsr : 0 < sampleRate) (hfps : 0 < fps) :
    (analyze sqrtq fftMag samples sampleRate fps bins).length =
      (⌊(samples.length : ℚ) * fps / sampleRate⌋).toNat ∧
    ∀ T : ℕ, (samples.length : ℚ) = (T : ℚ) * (sampleRate / fps) →
      (analyze sqrtq fftMag samples sampleRate fps bins).length = T := by
  have heq : (samples.length : ℚ) / samplesPerFrame sampleRate fps =
      (samples.length : ℚ) * fps / sampleRate := by
    rw [samplesPerFrame, div_div_eq_mul_div]
  constructor
  · simp [analyze, analyzeTotalFrames, heq]
  · intro T hT
    have hd : sampleRate / fps ≠ 0 := div_ne_zero hsr.ne' hfps.ne'
    simp only [analyze, List.length_map, List.length_range, analyzeTotalFrames,
      samplesPerFrame, hT]
    rw [mul_div_cancel_right₀ _ hd]
    simp

/-- Witness for C9's amended length formula on one sample at unit rates. -/
theorem analyze_length_formula_witness :
    ((0 : ℚ) < 1 ∧ (0 : ℚ) < 1) ∧
    ((analyze (fun q => q) (fun l => l) [0] 1 1 32).length =
        (⌊(([0] : List ℚ).length : ℚ) * 1 / 1⌋).toNat ∧
     ∀ T : ℕ, (([0] : List ℚ).length : ℚ) = (T : ℚ) * (1 / 1) →
       (analyze (fun q => q) (fun l => l) [0] 1 1 32).length = T) :=
  ⟨⟨by decide, by decide⟩,
   analyze_length_formula (fun q => q) (fun l => l) [0] 1 1 32 (by decide) (by decide)⟩

end Claw
